import Mathlib

/-!
Shallow embedding of `nereid/helpers.py` (pagination, slug generation,
flash messages, sitemap batching) and proofs of the specification claims.

Machine integers of the source are modelled as `ℕ`/`ℤ`; the float
expression `int(ceil(count / float(per_page)))` is modelled exactly as the
ceiling of the rational division.  Strings of the source are modelled as
Lean `String`s, and character data processed by `slugify` as lists of
Unicode code points (`List ℕ`).
-/

namespace Nereid

/-- Helper: the ceiling of the exact rational division of two naturals is
the usual natural-number ceiling division `(c + p - 1) / p`. -/
theorem ceil_natCast_div (c p : ℕ) (hp : 0 < p) :
    ⌈(c : ℚ) / (p : ℚ)⌉ = (((c + p - 1) / p : ℕ) : ℤ) := by
  have hp0 : (0 : ℚ) < (p : ℚ) := by exact_mod_cast hp
  have hdm := Nat.div_add_mod (c + p - 1) p
  have hmod : (c + p - 1) % p < p := Nat.mod_lt _ hp
  set z : ℕ := (c + p - 1) / p with hz
  set r : ℕ := (c + p - 1) % p with hr
  have hcp : 1 ≤ c + p := by omega
  have hdmq : (p : ℚ) * z + r = c + p - 1 := by
    have h1 : ((p * z + r : ℕ) : ℚ) = ((c + p - 1 : ℕ) : ℚ) := by
      exact_mod_cast congrArg (fun n : ℕ => (n : ℚ)) hdm
    push_cast [hcp] at h1
    linarith [h1]
  have hrq : (r : ℚ) + 1 ≤ p := by exact_mod_cast hmod
  have hrq0 : (0 : ℚ) ≤ r := by positivity
  rw [Int.ceil_eq_iff]
  constructor
  · rw [lt_div_iff₀ hp0]
    push_cast
    linarith
  · rw [div_le_iff₀ hp0]
    push_cast
    linarith

namespace BasePagination

/-- `pages = property(lambda self: int(ceil(self.count / float(self.per_page))))`. -/
def pages (count per_page : ℕ) : ℤ := ⌈(count : ℚ) / (per_page : ℚ)⌉

/-- `begin_count = min(((page - 1) * per_page) + 1, count)`. -/
def begin_count (page per_page count : ℕ) : ℕ :=
  min ((page - 1) * per_page + 1) count

/-- `end_count = min(begin_count + per_page - 1, count)`. -/
def end_count (page per_page count : ℕ) : ℕ :=
  min (begin_count page per_page count + per_page - 1) count

end BasePagination

namespace SitemapSection

/-- A domain clause on the `id` field, as built by `SitemapSection.__iter__`:
`('id', '>', v)` or `('id', '<=', v)`; other clauses of the caller-supplied
domain are modelled by an arbitrary boolean predicate on the id. -/
inductive Clause where
  | idGt (v : ℕ)
  | idLe (v : ℕ)
  | other (p : ℕ → Bool)

/-- Evaluate one domain clause against a record id. -/
def evalClause (recId : ℕ) : Clause → Bool
  | .idGt v => decide (v < recId)
  | .idLe v => decide (recId ≤ v)
  | .other p => p recId

/-- `model.search(domain)`: the ids of the records satisfying every clause
of the domain (the backend table is modelled as the list of its ids). -/
def search (records : List ℕ) (domain : List Clause) : List ℕ :=
  records.filter (fun recId => domain.all (evalClause recId))

/-- `min_id = property(lambda self: (self.page - 1) * self.batch_size)`. -/
def min_id (page batch_size : ℕ) : ℕ := (page - 1) * batch_size

/-- `max_id = property(lambda self: self.min_id + self.batch_size)`. -/
def max_id (page batch_size : ℕ) : ℕ := min_id page batch_size + batch_size

/-- The domain built by `__iter__`:
`[('id', '>', self.min_id), ('id', '<=', self.max_id)] + self.domain`. -/
def sectionDomain (page batch_size : ℕ) (extra : List Clause) : List Clause :=
  [.idGt (min_id page batch_size), .idLe (max_id page batch_size)] ++ extra

/-- The ids iterated over by `SitemapSection.__iter__`. -/
def sectionIds (records : List ℕ) (page batch_size : ℕ)
    (extra : List Clause) : List ℕ :=
  search records (sectionDomain page batch_size extra)

end SitemapSection

/-- C3 counterexample: on page 1 with batch size 1000 the code selects the
record with id 1000, although 1000 does not lie in the claimed half-open
range `[min_id, max_id) = [0, 1000)`. -/
theorem sectionIds_not_left_closed :
    SitemapSection.sectionIds [1000] 1 1000 [] = [1000]
      ∧ ¬ (SitemapSection.min_id 1 1000 ≤ 1000
          ∧ 1000 < SitemapSection.max_id 1 1000) := by
  constructor
  · rfl
  · intro h
    exact absurd h.2 (by decide)

/-- C3 amended: the batch of records selected for sitemap page `p` is
exactly those satisfying the rest of the domain whose id lies in the
contiguous half-open range `(min_id, max_id]`, where
`min_id = (p - 1) * batch_size` and `max_id = min_id + batch_size`. -/
theorem sectionIds_mem_iff (records : List ℕ) (page batch_size : ℕ)
    (extra : List SitemapSection.Clause) (recId : ℕ) :
    recId ∈ SitemapSection.sectionIds records page batch_size extra
      ↔ recId ∈ records
        ∧ SitemapSection.min_id page batch_size < recId
        ∧ recId ≤ SitemapSection.max_id page batch_size
        ∧ extra.all (SitemapSection.evalClause recId) = true := by
  simp [SitemapSection.sectionIds, SitemapSection.search,
    SitemapSection.sectionDomain, SitemapSection.evalClause,
    List.mem_filter, and_assoc]

namespace SitemapIndex

/-- `batch_size = 1000` (class attribute of `SitemapIndex`). -/
def batch_size : ℕ := 1000

/-- `page_count`: `int(ceil(float(self.count) / float(self.batch_size)))`,
as a function of the value returned by the `count` query. -/
def page_count (count : ℕ) : ℤ := ⌈(count : ℚ) / (batch_size : ℚ)⌉

/-- Helper: closed form of `page_count` as a natural ceiling division. -/
theorem page_count_eq (c : ℕ) : page_count c = (((c + 999) / 1000 : ℕ) : ℤ) := by
  have h := Nereid.ceil_natCast_div c 1000 (by norm_num)
  simpa [page_count, batch_size] using h

end SitemapIndex

/-- C1: for `per_page > 0` the `pages` property is the ceiling of
`count / per_page` (expressed as the natural ceiling division
`(count + per_page - 1) / per_page`), and it is `0` when `count = 0`. -/
theorem pages_is_ceil_div (count per_page : ℕ) (hp : 0 < per_page) :
    BasePagination.pages count per_page
        = (((count + per_page - 1) / per_page : ℕ) : ℤ)
      ∧ (count = 0 → BasePagination.pages count per_page = 0) := by
  have h := Nereid.ceil_natCast_div count per_page hp
  refine ⟨h, fun hc => ?_⟩
  subst hc
  unfold BasePagination.pages
  rw [h]
  have h0 : (0 + per_page - 1) / per_page = 0 :=
    Nat.div_eq_of_lt (by omega)
  rw [h0]
  simp

/-- Witness for C1 at `count = 7`, `per_page = 3`. -/
theorem pages_is_ceil_div_witness :
    0 < 3
      ∧ (BasePagination.pages 7 3 = (((7 + 3 - 1) / 3 : ℕ) : ℤ)
        ∧ (7 = 0 → BasePagination.pages 7 3 = 0)) :=
  ⟨by decide, pages_is_ceil_div 7 3 (by decide)⟩

/-- C2 counterexample: the code's batch size is 1000, so a record count of
50000 yields 50 sitemap pages, not the 1 page the claim's
`ceil(count / 50000)` example table asserts. -/
theorem page_count_50000_ne_one : ¬ SitemapIndex.page_count 50000 = 1 := by
  rw [SitemapIndex.page_count_eq]
  decide

/-- C2 amended: with the authoritative in-code batch size 1000,
`page_count == ceil(count / 1000)` on the example inputs, yielding
1, 50, 51, 100 and 101 pages respectively. -/
theorem page_count_on_examples :
    SitemapIndex.page_count 1 = 1
      ∧ SitemapIndex.page_count 50000 = 50
      ∧ SitemapIndex.page_count 50001 = 51
      ∧ SitemapIndex.page_count 100000 = 100
      ∧ SitemapIndex.page_count 100001 = 101 := by
  rw [SitemapIndex.page_count_eq, SitemapIndex.page_count_eq,
    SitemapIndex.page_count_eq, SitemapIndex.page_count_eq,
    SitemapIndex.page_count_eq]
  decide

/-- C4: with `page ≥ 1` and `per_page > 0`, both `begin_count` and
`end_count` are bounded by `count`, and on page 1 with a nonzero count
`begin_count` is exactly 1. -/
theorem begin_end_count_bounds (page per_page count : ℕ)
    (hpage : 1 ≤ page) (hpp : 0 < per_page) :
    BasePagination.begin_count page per_page count ≤ count
      ∧ BasePagination.end_count page per_page count ≤ count
      ∧ (page = 1 → 0 < count →
          BasePagination.begin_count page per_page count = 1) := by
  refine ⟨Nat.min_le_right _ _, Nat.min_le_right _ _, fun h1 hc => ?_⟩
  subst h1
  unfold BasePagination.begin_count
  norm_num
  omega

/-- Witness for C4 at `page = 1`, `per_page = 3`, `count = 5`. -/
theorem begin_end_count_bounds_witness :
    1 ≤ 1 ∧ 0 < 3
      ∧ (BasePagination.begin_count 1 3 5 ≤ 5
        ∧ BasePagination.end_count 1 3 5 ≤ 5
        ∧ (1 = 1 → 0 < 5 → BasePagination.begin_count 1 3 5 = 1)) :=
  ⟨by decide, by decide, begin_end_count_bounds 1 3 5 (by decide) (by decide)⟩

namespace Pagination

/-- One domain clause `(field, operator, value)`; the values relevant here
are id lists, so the value is modelled as a list of record ids. -/
structure DomainClause where
  field : String
  op : String
  ids : List ℕ

/-- The state of a `Pagination` object that its `count` property reads:
the search domain, the ordering, and the optional `_count` cache. -/
structure State where
  domain : List DomainClause
  order : Option String
  cachedCount : Option ℕ

/-- `ids_domain`: `len(domain) == 1 and domain[0][0] == 'id' and
domain[0][1] == 'in' and order is None`. -/
def ids_domain (p : State) : Bool :=
  (p.domain.length == 1)
    && (match p.domain with
        | cl :: _ => (cl.field == "id") && (cl.op == "in")
        | [] => false)
    && (p.order == none)

/-- `Pagination.count`: return `len(domain[0][2])` when `ids_domain()`,
else the cached `_count` if set, else delegate to the backend
`obj.search(domain, count=True)` (modelled by the oracle `searchCount`). -/
def count (searchCount : List DomainClause → ℕ) (p : State) : ℕ :=
  if ids_domain p then
    match p.domain with
    | cl :: _ => cl.ids.length
    | [] => 0
  else
    match p.cachedCount with
    | some n => n
    | none => searchCount p.domain

end Pagination

/-- C6 counterexample: a `Pagination` whose domain is the single clause
`('id', 'in', [5])` but whose order is not `None` falls through to the
backend search; with a backend reporting 0 matches its count is 0, not
`len(ids) = 1`. -/
theorem count_ids_domain_needs_no_order :
    Pagination.count (fun _ => 0)
        { domain := [⟨"id", "in", [5]⟩], order := some "name",
          cachedCount := none } = 0
      ∧ ([5] : List ℕ).length = 1 := by
  exact ⟨rfl, rfl⟩

/-- C6 amended: for every `Pagination` whose domain is the single clause
`('id', 'in', ids)` and whose order is `None`, `count` equals `len(ids)`
whatever the backend search oracle or the `_count` cache hold — i.e. the
backend count query is skipped. -/
theorem count_of_ids_domain (searchCount : List Pagination.DomainClause → ℕ)
    (cached : Option ℕ) (ids : List ℕ) :
    Pagination.count searchCount
        { domain := [⟨"id", "in", ids⟩], order := none,
          cachedCount := cached } = ids.length := rfl

namespace QueryPagination

/-- `offset = (page - 1) * per_page` (inherited `BasePagination.offset`). -/
def offset (page per_page : ℕ) : ℕ := (page - 1) * per_page

/-- The SQL string executed by `QueryPagination.items`:
`''.join([search_query, ' LIMIT %d' % per_page, ' OFFSET %d' % offset])`. -/
def executedSearchQuery (search_query : String) (page per_page : ℕ) : String :=
  search_query ++ " LIMIT " ++ toString per_page
    ++ " OFFSET " ++ toString (offset page per_page)

/-- The SQL string executed by `QueryPagination.count`: the caller-supplied
`count_query`, unchanged. -/
def executedCountQuery (count_query : String) : String := count_query

end QueryPagination

/-- C7 counterexample: the count fetch executes the caller-supplied count
query as-is; no LIMIT/OFFSET is appended to it (here with `page = 1`,
`per_page = 10`). -/
theorem count_query_has_no_limit_appended :
    QueryPagination.executedCountQuery "SELECT COUNT(id) FROM product"
      ≠ "SELECT COUNT(id) FROM product" ++ " LIMIT " ++ toString 10
          ++ " OFFSET " ++ toString (QueryPagination.offset 1 10) := by
  decide

/-- C7 amended: for `page ≥ 1` and `per_page > 0`, the page fetch executes
the caller-supplied search query with `LIMIT per_page` and
`OFFSET (page - 1) * per_page` appended, while the count fetch executes the
caller-supplied count query unchanged (the caller guarantees neither query
already carries a LIMIT or OFFSET). -/
theorem executed_queries_shape (search_query count_query : String)
    (page per_page : ℕ) (hpage : 1 ≤ page) (hpp : 0 < per_page) :
    QueryPagination.executedSearchQuery search_query page per_page
        = search_query ++ " LIMIT " ++ toString per_page
            ++ " OFFSET " ++ toString ((page - 1) * per_page)
      ∧ QueryPagination.executedCountQuery count_query = count_query :=
  ⟨rfl, rfl⟩

/-- Witness for C7 at `page = 2`, `per_page = 10`. -/
theorem executed_queries_shape_witness :
    1 ≤ 2 ∧ 0 < 10
      ∧ (QueryPagination.executedSearchQuery "SELECT id FROM product" 2 10
            = "SELECT id FROM product" ++ " LIMIT " ++ toString 10
                ++ " OFFSET " ++ toString ((2 - 1) * 10)
        ∧ QueryPagination.executedCountQuery "SELECT COUNT(id) FROM product"
            = "SELECT COUNT(id) FROM product") :=
  ⟨by decide, by decide,
    executed_queries_shape "SELECT id FROM product"
      "SELECT COUNT(id) FROM product" 2 10 (by decide) (by decide)⟩

namespace Slugify

/-- Python `\w` on a byte string without `re.UNICODE`: `[a-zA-Z0-9_]`. -/
def isWordChar (c : ℕ) : Bool :=
  (decide (48 ≤ c) && decide (c ≤ 57))
    || (decide (65 ≤ c) && decide (c ≤ 90))
    || (decide (97 ≤ c) && decide (c ≤ 122))
    || c == 95

/-- Python `\s` on a byte string: space, tab, newline, carriage return,
vertical tab, form feed. -/
def isSpaceChar (c : ℕ) : Bool :=
  c == 32 || c == 9 || c == 10 || c == 13 || c == 11 || c == 12

/-- `.encode('ascii', 'ignore')`: drop every code point above 127. -/
def asciiIgnore (l : List ℕ) : List ℕ :=
  l.filter (fun c => decide (c < 128))

/-- `_SLUGIFY_STRIP_RE.sub('', value)` with `_SLUGIFY_STRIP_RE =
re.compile(r'[^\w\s-]')`: delete every character that is neither a word
character, whitespace, nor a hyphen. -/
def stripDisallowed (l : List ℕ) : List ℕ :=
  l.filter (fun c => isWordChar c || isSpaceChar c || c == 45)

/-- `.strip()`: remove leading and trailing whitespace. -/
def stripWhitespace (l : List ℕ) : List ℕ :=
  ((l.dropWhile isSpaceChar).reverse.dropWhile isSpaceChar).reverse

/-- `.lower()` on the ASCII string produced by the previous steps. -/
def lower (l : List ℕ) : List ℕ :=
  l.map (fun c => if 65 ≤ c ∧ c ≤ 90 then c + 32 else c)

/-- A character matched by `_SLUGIFY_HYPHENATE_RE = re.compile(r'[-\s]+')`. -/
def isHyphenOrSpace (c : ℕ) : Bool :=
  c == 45 || isSpaceChar c

/-- `_SLUGIFY_HYPHENATE_RE.sub('-', value)`: replace every maximal run of
hyphens and whitespace by a single hyphen.  The boolean argument records
whether the previous character belonged to such a run. -/
def hyphenateAux : Bool → List ℕ → List ℕ
  | _, [] => []
  | prevRun, c :: rest =>
      if isHyphenOrSpace c then
        if prevRun then hyphenateAux true rest
        else 45 :: hyphenateAux true rest
      else c :: hyphenateAux false rest

/-- `_SLUGIFY_HYPHENATE_RE.sub('-', value)`. -/
def hyphenate (l : List ℕ) : List ℕ := hyphenateAux false l

/-- `slugify(value)`: NFKD-normalize, drop non-ASCII, delete characters
outside `[\w\s-]`, strip outer whitespace, lowercase, and collapse runs of
hyphens/whitespace into single hyphens.  The Unicode normalization step
`unicodedata.normalize('NFKD', ·)` is not re-implemented; it is passed in
as the function `nfkd`, assumed (where needed) to fix strings that are
already pure ASCII — a defining property of NFKD. -/
def slugify (nfkd : List ℕ → List ℕ) (value : List ℕ) : List ℕ :=
  hyphenate (lower (stripWhitespace (stripDisallowed (asciiIgnore (nfkd value)))))

/-- Characters that can occur in a slug: lowercase word characters and the
hyphen. -/
def isSlugChar (c : ℕ) : Bool :=
  (isWordChar c && !(decide (65 ≤ c) && decide (c ≤ 90))) || c == 45

/-- Every character emitted by `hyphenateAux` is either a hyphen or an
input character that is neither hyphen nor whitespace. -/
theorem mem_hyphenateAux (l : List ℕ) :
    ∀ (b : Bool) (c : ℕ), c ∈ hyphenateAux b l →
      c = 45 ∨ (c ∈ l ∧ isHyphenOrSpace c = false) := by
  induction l with
  | nil => intro b c h; simp [hyphenateAux] at h
  | cons d rest ih =>
      intro b c h
      by_cases hd : isHyphenOrSpace d = true
      · rcases b with _ | _
        · rw [hyphenateAux, if_pos hd, if_neg (by simp)] at h
          rcases List.mem_cons.mp h with h45 | h'
          · exact Or.inl h45
          · rcases ih true c h' with h45 | ⟨hm, hns⟩
            · exact Or.inl h45
            · exact Or.inr ⟨List.mem_cons_of_mem d hm, hns⟩
        · rw [hyphenateAux, if_pos hd, if_pos rfl] at h
          rcases ih true c h with h45 | ⟨hm, hns⟩
          · exact Or.inl h45
          · exact Or.inr ⟨List.mem_cons_of_mem d hm, hns⟩
      · rw [hyphenateAux, if_neg hd] at h
        rcases List.mem_cons.mp h with hdc | h'
        · subst hdc
          exact Or.inr ⟨List.mem_cons_self c rest,
            Bool.not_eq_true _ ▸ (by simpa using hd)⟩
        · rcases ih false c h' with h45 | ⟨hm, hns⟩
          · exact Or.inl h45
          · exact Or.inr ⟨List.mem_cons_of_mem d hm, hns⟩

/-- Every character of a slug is a lowercase word character or a hyphen. -/
theorem slug_chars (nfkd : List ℕ → List ℕ) (value : List ℕ) :
    ∀ c ∈ slugify nfkd value, isSlugChar c = true := by
  intro c hc
  rcases mem_hyphenateAux _ false c hc with h45 | ⟨hm, hns⟩
  · subst h45; rfl
  · rw [lower] at hm
    rcases List.mem_map.mp hm with ⟨d, hd, hdc⟩
    have hd2 : d ∈ stripDisallowed (asciiIgnore (nfkd value)) := by
      rw [stripWhitespace] at hd
      have h1 := List.mem_reverse.mp hd
      exact (List.dropWhile_sublist _).mem
        (List.mem_reverse.mp ((List.dropWhile_sublist _).mem h1))
    have hdAllowed : isWordChar d = true ∨ isSpaceChar d = true ∨ d = 45 := by
      rw [stripDisallowed] at hd2
      have := (List.mem_filter.mp hd2).2
      simpa [or_assoc] using this
    have hnsProp : ¬ c = 45 ∧ isSpaceChar c = false := by
      rw [isHyphenOrSpace] at hns
      simpa using hns
    rw [isWordChar] at hdAllowed
    simp only [Bool.or_eq_true, Bool.and_eq_true, decide_eq_true_eq,
      beq_iff_eq] at hdAllowed
    by_cases hup : 65 ≤ d ∧ d ≤ 90
    · rw [if_pos hup] at hdc
      subst hdc
      simp only [isSlugChar, isWordChar, Bool.or_eq_true, Bool.and_eq_true,
        decide_eq_true_eq, beq_iff_eq, Bool.not_eq_true',
        Bool.and_eq_false_iff, decide_eq_false_iff_not, Nat.not_le]
      omega
    · rw [if_neg hup] at hdc
      subst hdc
      have hspProp : isSpaceChar d = false := hnsProp.2
      rw [isSpaceChar] at hspProp
      simp only [Bool.or_eq_false_iff, beq_eq_false_iff_ne] at hspProp
      simp only [isSlugChar, isWordChar, Bool.or_eq_true, Bool.and_eq_true,
        decide_eq_true_eq, beq_iff_eq, Bool.not_eq_true',
        Bool.and_eq_false_iff, decide_eq_false_iff_not, Nat.not_le]
      rcases hdAllowed with h | h | h
      · omega
      · rw [isSpaceChar] at h
        simp only [Bool.or_eq_true, beq_iff_eq] at h
        omega
      · exact absurd h hnsProp.1

/-- Arithmetic consequences of being a slug character. -/
theorem slugChar_facts (c : ℕ) (h : isSlugChar c = true) :
    c < 128
      ∧ (isWordChar c || isSpaceChar c || c == 45) = true
      ∧ isSpaceChar c = false
      ∧ ¬(65 ≤ c ∧ c ≤ 90) := by
  simp only [isSlugChar, isWordChar, Bool.or_eq_true, Bool.and_eq_true,
    decide_eq_true_eq, beq_iff_eq, Bool.not_eq_true', Bool.and_eq_false_iff,
    decide_eq_false_iff_not, Nat.not_le] at h
  refine ⟨by omega, ?_, ?_, by omega⟩
  · simp only [isWordChar, isSpaceChar, Bool.or_eq_true, Bool.and_eq_true,
      decide_eq_true_eq, beq_iff_eq]
    omega
  · simp only [isSpaceChar, Bool.or_eq_false_iff, beq_eq_false_iff_ne]
    omega

/-- `dropWhile` is the identity when no element satisfies the predicate. -/
theorem dropWhile_eq_self_of {p : ℕ → Bool} {l : List ℕ}
    (h : ∀ c ∈ l, p c = false) : l.dropWhile p = l := by
  cases l with
  | nil => rfl
  | cons a l =>
      rw [List.dropWhile_cons, h a (List.mem_cons_self a l)]
      simp

/-- `stripWhitespace` is the identity on whitespace-free strings. -/
theorem stripWhitespace_eq_self {l : List ℕ}
    (h : ∀ c ∈ l, isSpaceChar c = false) : stripWhitespace l = l := by
  rw [stripWhitespace, dropWhile_eq_self_of h,
    dropWhile_eq_self_of (fun c hc => h c (List.mem_reverse.mp hc)),
    List.reverse_reverse]

/-- `lower` is the identity on strings without uppercase letters. -/
theorem lower_eq_self {l : List ℕ} (h : ∀ c ∈ l, ¬(65 ≤ c ∧ c ≤ 90)) :
    lower l = l := by
  rw [lower]
  conv_rhs => rw [← List.map_id l]
  exact List.map_congr_left (fun c hc => by rw [if_neg (h c hc)]; rfl)

/-- Collapsing hyphen/whitespace runs is idempotent. -/
theorem hyphenateAux_idem (l : List ℕ) :
    ∀ b, hyphenateAux b (hyphenateAux b l) = hyphenateAux b l := by
  induction l with
  | nil => intro b; rfl
  | cons c rest ih =>
      intro b
      by_cases hc : isHyphenOrSpace c = true
      · cases b with
        | true =>
            rw [hyphenateAux, if_pos hc, if_pos rfl]
            exact ih true
        | false =>
            rw [hyphenateAux, if_pos hc, if_neg (by simp)]
            rw [hyphenateAux,
              if_pos (show isHyphenOrSpace 45 = true from rfl),
              if_neg (by simp)]
            rw [ih true]
      · rw [hyphenateAux, if_neg hc]
        conv_lhs => rw [hyphenateAux, if_neg hc]
        rw [ih false]

end Slugify

/-- C5: `slugify` is idempotent — `slugify(slugify(x)) = slugify(x)` for
every input string `x` and every NFKD normalization function (any function
that fixes pure-ASCII strings, which NFKD does). -/
theorem slugify_idempotent (nfkd : List ℕ → List ℕ)
    (hnfkd : ∀ l : List ℕ, (∀ c ∈ l, c < 128) → nfkd l = l)
    (value : List ℕ) :
    Slugify.slugify nfkd (Slugify.slugify nfkd value)
      = Slugify.slugify nfkd value := by
  have hchars := Slugify.slug_chars nfkd value
  have h1 : nfkd (Slugify.slugify nfkd value) = Slugify.slugify nfkd value :=
    hnfkd _ (fun c hc => (Slugify.slugChar_facts c (hchars c hc)).1)
  have h2 : Slugify.asciiIgnore (Slugify.slugify nfkd value)
      = Slugify.slugify nfkd value :=
    List.filter_eq_self.mpr (fun c hc =>
      decide_eq_true (Slugify.slugChar_facts c (hchars c hc)).1)
  have h3 : Slugify.stripDisallowed (Slugify.slugify nfkd value)
      = Slugify.slugify nfkd value :=
    List.filter_eq_self.mpr (fun c hc =>
      (Slugify.slugChar_facts c (hchars c hc)).2.1)
  have h4 : Slugify.stripWhitespace (Slugify.slugify nfkd value)
      = Slugify.slugify nfkd value :=
    Slugify.stripWhitespace_eq_self (fun c hc =>
      (Slugify.slugChar_facts c (hchars c hc)).2.2.1)
  have h5 : Slugify.lower (Slugify.slugify nfkd value)
      = Slugify.slugify nfkd value :=
    Slugify.lower_eq_self (fun c hc =>
      (Slugify.slugChar_facts c (hchars c hc)).2.2.2)
  conv_lhs => rw [Slugify.slugify, h1, h2, h3, h4, h5]
  conv_lhs => rw [Slugify.slugify, Slugify.hyphenate]
  rw [show Slugify.hyphenate
      (Slugify.lower (Slugify.stripWhitespace (Slugify.stripDisallowed
        (Slugify.asciiIgnore (nfkd value)))))
      = Slugify.hyphenateAux false
        (Slugify.lower (Slugify.stripWhitespace (Slugify.stripDisallowed
          (Slugify.asciiIgnore (nfkd value))))) from rfl]
  rw [Slugify.hyphenateAux_idem _ false]
  rfl

/-- Witness for C5: the slug of `"Sharoon  Thomas"` (with the identity in
place of NFKD, which fixes ASCII strings) is a fixed point of `slugify`. -/
theorem slugify_idempotent_witness :
    (∀ l : List ℕ, (∀ c ∈ l, c < 128) → (id : List ℕ → List ℕ) l = l)
      ∧ Slugify.slugify id (Slugify.slugify id
            [83, 104, 97, 114, 111, 111, 110, 32, 32, 84, 104, 111, 109, 97, 115])
          = Slugify.slugify id
            [83, 104, 97, 114, 111, 111, 110, 32, 32, 84, 104, 111, 109, 97, 115] :=
  ⟨fun _ _ => rfl,
    slugify_idempotent id (fun _ _ => rfl)
      [83, 104, 97, 114, 111, 111, 110, 32, 32, 84, 104, 111, 109, 97, 115]⟩

namespace IterPages

/-- The filter of `BasePagination.iter_pages`:
`num <= left_edge or (num > page - left_current - 1 and
num < page + right_current) or num > pages - right_edge`. -/
def pageCondition (page : ℤ) (pages : ℕ)
    (left_edge left_current right_current right_edge : ℤ) (num : ℤ) : Bool :=
  decide (num ≤ left_edge)
    || (decide (page - left_current - 1 < num)
        && decide (num < page + right_current))
    || decide ((pages : ℤ) - right_edge < num)

/-- The loop body of `iter_pages`: walk the candidate page numbers, keep
those satisfying the filter, remember the last yielded number in `last`
(initially 0), and yield a `none` marker before any yielded number that is
not `last + 1`. -/
def iterPagesAux (cond : ℤ → Bool) : List ℤ → ℤ → List (Option ℤ)
  | [], _ => []
  | num :: rest, last =>
      if cond num then
        (if last + 1 ≠ num then [none, some num] else [some num])
          ++ iterPagesAux cond rest num
      else iterPagesAux cond rest last

/-- `iter_pages(left_edge, left_current, right_current, right_edge)` as the
list of yielded values (`none` = the skipped-pages marker), the loop
running over `xrange(1, pages + 1)`. -/
def iter_pages (page : ℤ) (pages : ℕ)
    (left_edge left_current right_current right_edge : ℤ) :
    List (Option ℤ) :=
  iterPagesAux (pageCondition page pages left_edge left_current
      right_current right_edge)
    ((List.range pages).map (fun i : ℕ => (i : ℤ) + 1)) 0

/-- Checker for the claimed output invariant, threading the previously
yielded number (initially 0): every yielded number exceeds the previous
one, lies in `[1, pages]`, and every `none` marker is immediately followed
by a yielded number that is not the successor of the previous one. -/
def checkIterOutput (pages : ℕ) : ℤ → List (Option ℤ) → Bool
  | _, [] => true
  | last, some n :: rest =>
      decide (last < n) && decide (1 ≤ n) && decide (n ≤ (pages : ℤ))
        && checkIterOutput pages n rest
  | last, none :: some n :: rest =>
      decide (last + 1 ≠ n)
        && decide (last < n) && decide (1 ≤ n) && decide (n ≤ (pages : ℤ))
        && checkIterOutput pages n rest
  | _, [none] => false
  | _, none :: none :: _ => false

/-- The invariant holds for `iterPagesAux` run over any sorted list of
candidates lying strictly above `last` and within `[1, pages]`, whatever
the filter condition. -/
theorem checkIterOutput_iterPagesAux (pages : ℕ) (cond : ℤ → Bool)
    (l : List ℤ) :
    ∀ last : ℤ, l.Pairwise (· < ·) →
      (∀ x ∈ l, last < x ∧ 1 ≤ x ∧ x ≤ (pages : ℤ)) →
      checkIterOutput pages last (iterPagesAux cond l last) = true := by
  induction l with
  | nil => intro last _ _; rfl
  | cons num rest ih =>
      intro last hpair hmem
      obtain ⟨hlt, h1, hle⟩ := hmem num (List.mem_cons_self num rest)
      have hpair' : rest.Pairwise (· < ·) := (List.pairwise_cons.mp hpair).2
      have hnumlt : ∀ x ∈ rest, num < x :=
        (List.pairwise_cons.mp hpair).1
      have hmem' : ∀ x ∈ rest, num < x ∧ 1 ≤ x ∧ x ≤ (pages : ℤ) :=
        fun x hx => ⟨hnumlt x hx,
          (hmem x (List.mem_cons_of_mem num hx)).2⟩
      have hmemlast : ∀ x ∈ rest, last < x ∧ 1 ≤ x ∧ x ≤ (pages : ℤ) :=
        fun x hx => ⟨lt_trans hlt (hnumlt x hx),
          (hmem x (List.mem_cons_of_mem num hx)).2⟩
      rw [iterPagesAux]
      by_cases hc : cond num = true
      · rw [if_pos hc]
        have htail := ih num hpair' hmem'
        by_cases hsucc : last + 1 ≠ num
        · rw [if_pos hsucc, List.cons_append, List.cons_append,
            List.nil_append]
          show (decide (last + 1 ≠ num) && decide (last < num)
              && decide (1 ≤ num) && decide (num ≤ (pages : ℤ))
              && checkIterOutput pages num (iterPagesAux cond rest num))
            = true
          simp only [Bool.and_eq_true, decide_eq_true_eq]
          exact ⟨by omega, htail⟩
        · rw [if_neg hsucc, List.cons_append, List.nil_append]
          show (decide (last < num) && decide (1 ≤ num)
              && decide (num ≤ (pages : ℤ))
              && checkIterOutput pages num (iterPagesAux cond rest num))
            = true
          simp only [Bool.and_eq_true, decide_eq_true_eq]
          exact ⟨by omega, htail⟩
      · rw [if_neg hc]
        exact ih last hpair' hmemlast

end IterPages

/-- C10: for any page, page count and non-negative edge parameters, the
`iter_pages` output yields strictly increasing page numbers, each between
1 and `pages` inclusive, and a `none` marker appears only immediately
before a yielded number that is not the successor of the previously
yielded number (the number before the first yield counting as 0). -/
theorem iter_pages_invariant (page : ℤ) (pages : ℕ)
    (left_edge left_current right_current right_edge : ℤ)
    (h1 : 0 ≤ left_edge) (h2 : 0 ≤ left_current)
    (h3 : 0 ≤ right_current) (h4 : 0 ≤ right_edge) :
    IterPages.checkIterOutput pages 0
      (IterPages.iter_pages page pages left_edge left_current
        right_current right_edge) = true := by
  rw [IterPages.iter_pages]
  apply IterPages.checkIterOutput_iterPagesAux
  · rw [List.pairwise_map]
    refine List.Pairwise.imp ?_ (List.pairwise_lt_range pages)
    intro a b hab
    push_cast
    omega
  · intro x hx
    rcases List.mem_map.mp hx with ⟨i, hi, rfl⟩
    have := List.mem_range.mp hi
    omega

/-- Witness for C10 at `page = 15`, `pages = 30`, all edges 2. -/
theorem iter_pages_invariant_witness :
    (0 : ℤ) ≤ 2 ∧ (0 : ℤ) ≤ 2 ∧ (0 : ℤ) ≤ 2 ∧ (0 : ℤ) ≤ 2
      ∧ IterPages.checkIterOutput 30 0
          (IterPages.iter_pages 15 30 2 2 2 2) = true :=
  ⟨by decide, by decide, by decide, by decide,
    iter_pages_invariant 15 30 2 2 2 2 (by decide) (by decide)
      (by decide) (by decide)⟩

/-- The per-session and per-request state read and written by `flash` and
`get_flashed_messages`: the optional `'_flashes'` session key (absent =
`none`) and the request context's `flashes` attribute. -/
structure FlashState where
  session : Option (List (String × String))
  ctxFlashes : Option (List (String × String))

/-- `flash(message, category)`:
`session.setdefault('_flashes', []).append((category, message))`. -/
def flash (st : FlashState) (message : String)
    (category : String) : FlashState :=
  { st with session := some (st.session.getD [] ++ [(category, message)]) }

/-- `get_flashed_messages` (the `with_categories=True` view, which returns
the `(category, message)` pairs): if the request context holds no drained
list yet, pop `'_flashes'` from the session (or take `[]` when absent),
store it on the request context and return it; otherwise return the stored
list.  Returns the pair list together with the updated state. -/
def get_flashed_messages (st : FlashState) :
    List (String × String) × FlashState :=
  match st.ctxFlashes with
  | some fl => (fl, st)
  | none =>
      let fl := st.session.getD []
      (fl, { session := none, ctxFlashes := some fl })

/-- A fresh request cycle with an empty session, followed by a sequence of
`flash(message, category)` calls. -/
def applyFlashes (msgs : List (String × String)) : FlashState :=
  msgs.foldl (fun st mc => flash st mc.1 mc.2) ⟨none, none⟩

/-- Helper: folding `flash` over a message list appends the swapped pairs
to the session queue and leaves the request context untouched. -/
theorem foldl_flash (msgs : List (String × String)) (st : FlashState) :
    (msgs.foldl (fun s mc => flash s mc.1 mc.2) st).session.getD []
        = st.session.getD [] ++ msgs.map (fun mc => (mc.2, mc.1))
      ∧ (msgs.foldl (fun s mc => flash s mc.1 mc.2) st).ctxFlashes
        = st.ctxFlashes := by
  induction msgs generalizing st with
  | nil => simp
  | cons mc rest ih =>
      simpa [flash] using ih (flash st mc.1 mc.2)

/-- C8: after any sequence of `flash` calls in a fresh request cycle, the
first `get_flashed_messages` call returns exactly the queued
`(category, message)` pairs and removes them from the session, and any
further call returns the same list from the same state, leaving the
session untouched. -/
theorem flashes_drained_once (msgs : List (String × String)) :
    (get_flashed_messages (applyFlashes msgs)).1
        = msgs.map (fun mc => (mc.2, mc.1))
      ∧ (get_flashed_messages (applyFlashes msgs)).2.session = none
      ∧ get_flashed_messages (get_flashed_messages (applyFlashes msgs)).2
          = ((get_flashed_messages (applyFlashes msgs)).1,
              (get_flashed_messages (applyFlashes msgs)).2) := by
  obtain ⟨hq, hctx⟩ := foldl_flash msgs ⟨none, none⟩
  have hmain : get_flashed_messages (applyFlashes msgs)
      = (msgs.map (fun mc => (mc.2, mc.1)),
          { session := none,
            ctxFlashes := some (msgs.map (fun mc => (mc.2, mc.1))) }) := by
    rw [get_flashed_messages, applyFlashes] at *
    rw [hctx]
    simpa using hq
  rw [hmain]
  exact ⟨rfl, rfl, rfl⟩

namespace SphinxPagination

/-- `sphinx_enabled`: `'sphinx_server' in CONFIG.options and 'sphinx_port'
in CONFIG.options` (the configuration modelled as an association list). -/
def sphinx_enabled (options : List (String × String)) : Bool :=
  (options.lookup "sphinx_server").isSome
    && (options.lookup "sphinx_port").isSome

/-- The error behaviour of `SphinxPagination.__init__`: raise
`RuntimeError("Sphinx is not available or configured")` unless the sphinx
configuration is enabled. -/
def initOutcome (options : List (String × String)) : Except String Unit :=
  if !sphinx_enabled options then
    .error "Sphinx is not available or configured"
  else
    .ok ()

/-- The error behaviour of `SphinxPagination.result`: when
`sphinx_client.Query(...)` returns `None`, raise an exception carrying
`sphinx_client.GetLastError()`; otherwise return the query result. -/
def resultOutcome {α : Type} (queryResult : Option α)
    (lastError : String) : Except String α :=
  match queryResult with
  | none => .error lastError
  | some rv => .ok rv

end SphinxPagination

/-- C9: constructing a `SphinxPagination` raises the runtime error whenever
the `sphinx_server` or `sphinx_port` option is absent from the
configuration, and a query execution returning no result raises an error
carrying the search server's last-error text. -/
theorem sphinx_error_handling (options : List (String × String))
    (h : options.lookup "sphinx_server" = none
        ∨ options.lookup "sphinx_port" = none) :
    SphinxPagination.initOutcome options
        = .error "Sphinx is not available or configured"
      ∧ ∀ (α : Type) (lastError : String),
          SphinxPagination.resultOutcome (none : Option α) lastError
            = .error lastError := by
  constructor
  · rw [SphinxPagination.initOutcome]
    have hen : SphinxPagination.sphinx_enabled options = false := by
      rw [SphinxPagination.sphinx_enabled]
      rcases h with h | h <;> simp [h]
    rw [hen]
    rfl
  · intro α lastError
    rfl

/-- Witness for C9 with an empty configuration. -/
theorem sphinx_error_handling_witness :
    (([] : List (String × String)).lookup "sphinx_server" = none
        ∨ ([] : List (String × String)).lookup "sphinx_port" = none)
      ∧ (SphinxPagination.initOutcome []
            = .error "Sphinx is not available or configured"
        ∧ ∀ (α : Type) (lastError : String),
            SphinxPagination.resultOutcome (none : Option α) lastError
              = .error lastError) :=
  ⟨Or.inl rfl, sphinx_error_handling [] (Or.inl rfl)⟩

end Nereid
